import Mathlib

/-
Verification of the Lequel trigram-based language identifier (src/Lequel.cpp).

Shallow embedding conventions:
- A decoded line is a list of Unicode code points (`List ℕ`), the model of the
  `std::wstring` produced by `wstring_convert::from_bytes`.  The undecoded byte
  level only appears in `buildTrigramProfileBytes`, which models the decode
  failure path (the facet throwing `std::range_error`).
- A trigram key is the 3-code-point window itself.  In the C++ code the key is
  the UTF-8 re-encoding of the window (`converter.to_bytes`); UTF-8 encoding is
  injective and byte-lexicographic UTF-8 order agrees with code-point
  lexicographic order, so `List ℕ` keys with the lexicographic order are a
  faithful model of the `std::string` keys of the `std::map`.
- `std::map<std::string, float>` is modelled as an association list sorted by
  key (`TrigramProfile`); `profFind`, `profIncr` and `profBracket` model
  `find`, the found-then-increment-else-insert pattern, and `operator[]`.
- `float` values are modelled as exact rationals.  The two operations that do
  not exist on ℚ are abstracted as explicit function parameters: `sqrtf`
  (the C library square root) and `to_string` (C++ `std::to_string` on float).
- The mutation that `getCosineSimilarity` could in principle perform on the
  language profile through `operator[]` is made explicit: the function returns
  the possibly-updated language profile next to the accumulated sum.
- The external collaborators declared in CSVData.h and Lequel.h but absent from
  src/ (`getTextFromFile`, `writeCSV`, the `Text`/`CSVData` typedefs) are
  modelled from the spec, see the doc comments below.
-/

/-- A decoded line: the sequence of Unicode code points of one line of text. -/
abbrev Line := List ℕ

/-- Modelled from the spec: `Text` (declared in Lequel.h, not in src/) is "an
ordered sequence of lines (strings)". -/
abbrev Text := List Line

/-- A trigram key: a window of exactly 3 code points (the C++ key is its UTF-8
re-encoding, an equivalent representation). -/
abbrev Trigram := List ℕ

/-- Model of `std::map<std::string, float>`: an association list from trigram
keys to rational frequencies, kept sorted by key by all insertion operations. -/
abbrev TrigramProfile := List (Trigram × ℚ)

/-- Model of the `LanguageProfile` record: a language code paired with a
trigram profile. -/
structure LanguageProfile where
  languageCode : String
  trigramProfile : TrigramProfile
deriving DecidableEq

/-- Model of `LanguageProfiles`: an ordered catalog of language profiles. -/
abbrev LanguageProfiles := List LanguageProfile

/-- Modelled from the spec: `CSVData` (declared in CSVData.h, not in src/) is a
sequence of rows; `addLanguage` only ever pushes two-cell rows `{trigram,
frecuency}`, modelled as a pair of the trigram and the rendered count. -/
abbrev CSVData := List (Trigram × String)

/-- Model of `std::map::find` (presence/value lookup by key). -/
def profFind : TrigramProfile → Trigram → Option ℚ
  | [], _ => none
  | (k', v) :: rest, k => if k = k' then some v else profFind rest k

/-- Model of the update step of `buildTrigramProfile` (Lequel.cpp:58-67): if
the key is present, add 1 to its value; otherwise insert it with value 1 at its
sorted position (as `std::map::insert` does). -/
def profIncr : TrigramProfile → Trigram → TrigramProfile
  | [], k => [(k, 1)]
  | (k', v) :: rest, k =>
    if k = k' then (k', v + 1) :: rest
    else if k < k' then (k, 1) :: (k', v) :: rest
    else (k', v) :: profIncr rest k

/-- Model of `std::map::operator[]`: returns the value stored at the key, after
inserting a value-initialized entry (`0.0f`) when the key is absent.  The
second component is the map after the access. -/
def profBracket : TrigramProfile → Trigram → ℚ × TrigramProfile
  | [], k => (0, [(k, 0)])
  | (k', v) :: rest, k =>
    if k = k' then (v, (k', v) :: rest)
    else if k < k' then (0, (k, 0) :: (k', v) :: rest)
    else ((profBracket rest k).1, (k', v) :: (profBracket rest k).2)

/-- The sortedness invariant of the `std::map` model: keys strictly increase. -/
def ProfKeysSorted (p : TrigramProfile) : Prop :=
  List.Pairwise (fun a b => a.1 < b.1) p

/-- Model of Lequel.cpp:39-40: drop a single trailing carriage return (code
point / byte 13) when the line is nonempty and ends with it. -/
def stripCR (line : Line) : Line :=
  if line.getLast? = some 13 then line.dropLast else line

/-- Model of `::tolower` as applied codepoint-wise at Lequel.cpp:50: in the
default "C" locale only the ASCII letters A-Z (65-90) are mapped (to 97-122);
every other value is returned unchanged. -/
def tolower (c : ℕ) : ℕ :=
  if 65 ≤ c ∧ c ≤ 90 then c + 32 else c

/-- The windows taken by the loop at Lequel.cpp:52-54: `substr(i, 3)` for
`i = 0 .. length - 3`, i.e. every width-3 window with stride 1. -/
def windows3 : Line → List Trigram
  | a :: b :: c :: rest => [a, b, c] :: windows3 (b :: c :: rest)
  | _ => []

/-- The per-line body of `buildTrigramProfile` after decoding
(Lequel.cpp:46-68): skip the line when it has fewer than 3 code points,
otherwise lowercase it and count every width-3 window. -/
def processDecodedLine (textProfile : TrigramProfile) (unicodeString : Line) :
    TrigramProfile :=
  if unicodeString.length < 3 then textProfile
  else (windows3 (unicodeString.map tolower)).foldl profIncr textProfile

/-- The full per-line body of `buildTrigramProfile` (Lequel.cpp:39-68):
carriage-return stripping followed by the decoded-line processing. -/
def processLine (textProfile : TrigramProfile) (line : Line) : TrigramProfile :=
  processDecodedLine textProfile (stripCR line)

/-- Model of `buildTrigramProfile` (Lequel.cpp:27-71) over decoded lines. -/
def buildTrigramProfile (text : Text) : TrigramProfile :=
  text.foldl processLine []

/-- Model of `buildTrigramProfile` at the byte level (Lequel.cpp:27-71).
`from_bytes` models `wstring_convert::from_bytes`: it decodes a byte sequence
into code points, `none` standing for the `std::range_error` the facet throws
on bytes that are not valid Unicode.  A thrown exception propagates out of the
function and discards the profile built so far, which is modelled by the
`Except.error` short-circuit of the fold. -/
def buildTrigramProfileBytes (from_bytes : List ℕ → Option Line)
    (text : List (List ℕ)) : Except String TrigramProfile :=
  text.foldlM
    (fun textProfile line =>
      match from_bytes (stripCR line) with
      | none => Except.error "range_error"
      | some unicodeString => Except.ok (processDecodedLine textProfile unicodeString))
    []

/-- The sum-of-squares loop of `normalizeTrigramProfile` (Lequel.cpp:84-85). -/
def sumSquares (trigramProfile : TrigramProfile) : ℚ :=
  trigramProfile.foldl (fun sum element => sum + element.2 * element.2) 0

/-- Model of `normalizeTrigramProfile` (Lequel.cpp:78-95): divide every value
by `sqrtf(sumSquares)`.  `sqrtf` (the C float square root) is passed in as an
abstract function; theorems about normalization constrain it to behave as an
exact square root where that matters. -/
def normalizeTrigramProfile (sqrtf : ℚ → ℚ) (trigramProfile : TrigramProfile) :
    TrigramProfile :=
  trigramProfile.map (fun element => (element.1, element.2 / sqrtf (sumSquares trigramProfile)))

/-- The loop body of `getCosineSimilarity` (Lequel.cpp:109-115).  When `find`
locates the text entry's key in the (current) language profile, the product of
the two values is accumulated via `operator[]`.  The second component of the
accumulator is the language profile as left behind by the `operator[]`
accesses. -/
def cosineStep (acc : ℚ × TrigramProfile) (elementText : Trigram × ℚ) :
    ℚ × TrigramProfile :=
  if (profFind acc.2 elementText.1).isSome then
    (acc.1 + elementText.2 * (profBracket acc.2 elementText.1).1,
     (profBracket acc.2 elementText.1).2)
  else acc

/-- Model of `getCosineSimilarity` (Lequel.cpp:104-118): fold `cosineStep`
over the text profile starting from `sumProduct = 0` and the given language
profile. -/
def getCosineSimilarity (textProfile languageProfile : TrigramProfile) :
    ℚ × TrigramProfile :=
  textProfile.foldl cosineStep (0, languageProfile)

/-- One iteration of the catalog loop of `identifyLanguage`
(Lequel.cpp:137-146): replace the best match only on a strictly greater
similarity.  Each iteration works on a by-value copy of the catalog entry, so
the second component of `getCosineSimilarity` is discarded exactly as the C++
loop discards its copy. -/
def bestStep (trigramProfileText : TrigramProfile) (best : ℚ × String)
    (languageProfile : LanguageProfile) : ℚ × String :=
  if best.1 < (getCosineSimilarity trigramProfileText languageProfile.trigramProfile).1 then
    ((getCosineSimilarity trigramProfileText languageProfile.trigramProfile).1,
     languageProfile.languageCode)
  else best

/-- The catalog loop of `identifyLanguage` (Lequel.cpp:129-146), started from
the initial state `maxCosineSimilarity = 0`, code `"---"`. -/
def bestMatch (trigramProfileText : TrigramProfile) (languages : LanguageProfiles) :
    ℚ × String :=
  languages.foldl (bestStep trigramProfileText) (0, "---")

/-- Model of `identifyLanguage` (Lequel.cpp:127-152).  `to_string` models
`std::to_string` on `float` (the decimal rendering of the score). -/
def identifyLanguage (sqrtf : ℚ → ℚ) (to_string : ℚ → String) (text : Text)
    (languages : LanguageProfiles) : String :=
  let trigramProfileText := normalizeTrigramProfile sqrtf (buildTrigramProfile text)
  let best := bestMatch trigramProfileText languages
  if 0 < best.1 then best.2 ++ " (" ++ to_string best.1 ++ ")" else best.2

/-- Model of `buildLanguageProfile` (Lequel.cpp:192-195). -/
def buildLanguageProfile (corpus : Text) : TrigramProfile :=
  buildTrigramProfile corpus

/-- Model of the C cast `(int)` applied to a `float` at Lequel.cpp:176:
truncation toward zero. -/
def truncInt (q : ℚ) : ℤ :=
  if 0 ≤ q then ⌊q⌋ else -⌊-q⌋

/-- Model of `addLanguage` (Lequel.cpp:160-184).  The external collaborators
are modelled from the spec: `getTextFromFile` is the spec's
`readText(path) -> (Text, success)` and `writeCSV` the spec's
`writeRows(path, rows) -> success` (both declared in headers outside src/).
The second component of the result is the log of `writeCSV` calls performed,
so that "writes nothing" and "writes to this path" are expressible. -/
def addLanguage (getTextFromFile : String → Bool × Text)
    (writeCSV : String → CSVData → Bool) (path : String) :
    Bool × List (String × CSVData) :=
  let read := getTextFromFile path
  if read.1 then
    let corpusProfile := buildLanguageProfile read.2
    if corpusProfile.isEmpty then (false, [])
    else
      let csvTrigrams : CSVData :=
        corpusProfile.map (fun element => (element.1, toString (truncInt element.2)))
      (writeCSV "resources/trigrams/gua.csv" csvTrigrams,
       [("resources/trigrams/gua.csv", csvTrigrams)])
  else (false, [])

/-- Spec-side description (for claim C1) of the trigrams a single line
contributes: after stripping a trailing carriage return, a line of fewer than
3 code points contributes nothing, and a longer one contributes exactly
`length - 2` width-3 windows with stride 1 (case-folded). -/
def specLineTrigrams (line : Line) : List Trigram :=
  let stripped := stripCR line
  if stripped.length < 3 then []
  else (List.range (stripped.length - 2)).map
    (fun i => ((stripped.map tolower).drop i).take 3)

/-- Spec-side description (for claim C2) of the similarity sum: over exactly
those keys of `textProfile` that are also keys of `languageProfile`, sum the
products of the two stored values. -/
def specCosineSum (textProfile languageProfile : TrigramProfile) : ℚ :=
  (((textProfile.map Prod.fst).filter
      (fun k => (profFind languageProfile k).isSome)).map
    (fun k => (profFind textProfile k).getD 0 * (profFind languageProfile k).getD 0)).sum

/-- ASCII upper-casing, the inverse direction of `tolower`, used to state the
case-insensitivity claim C7. -/
def toupper (c : ℕ) : ℕ :=
  if 97 ≤ c ∧ c ≤ 122 then c - 32 else c

theorem profFind_not_mem (p : TrigramProfile) (k : Trigram)
    (h : ∀ e ∈ p, k < e.1) : profFind p k = none := by
  induction p with
  | nil => rfl
  | cons hd tl ih =>
    obtain ⟨k', v⟩ := hd
    have hk : k ≠ k' := ne_of_lt (h (k', v) (List.mem_cons_self _ _))
    simp only [profFind, if_neg hk]
    exact ih (fun e he => h e (List.mem_cons_of_mem _ he))

theorem keys_profIncr (p : TrigramProfile) (k : Trigram) (x : Trigram × ℚ)
    (hx : x ∈ profIncr p k) : x.1 = k ∨ x.1 ∈ p.map Prod.fst := by
  induction p with
  | nil =>
    simp only [profIncr, List.mem_singleton] at hx
    exact Or.inl (by rw [hx])
  | cons hd tl ih =>
    obtain ⟨k', v⟩ := hd
    by_cases he : k = k'
    · simp only [profIncr, if_pos he, List.mem_cons] at hx
      rcases hx with h | h
      · exact Or.inr (by simp [h])
      · exact Or.inr (by simp; right; exact ⟨x.2, by simpa using h⟩)
    · by_cases hlt : k < k'
      · simp only [profIncr, if_neg he, if_pos hlt, List.mem_cons] at hx
        rcases hx with h | h | h
        · exact Or.inl (by rw [h])
        · exact Or.inr (by simp [h])
        · exact Or.inr (by simp; right; exact ⟨x.2, by simpa using h⟩)
      · simp only [profIncr, if_neg he, if_neg hlt, List.mem_cons] at hx
        rcases hx with h | h
        · exact Or.inr (by simp [h])
        · rcases ih h with h' | h'
          · exact Or.inl h'
          · exact Or.inr (by simp at h' ⊢; tauto)

theorem profIncr_sorted (p : TrigramProfile) (k : Trigram) (hp : ProfKeysSorted p) :
    ProfKeysSorted (profIncr p k) := by
  induction p with
  | nil => simp [profIncr, ProfKeysSorted]
  | cons hd tl ih =>
    obtain ⟨k', v⟩ := hd
    rw [ProfKeysSorted, List.pairwise_cons] at hp
    obtain ⟨h1, h2⟩ := hp
    by_cases he : k = k'
    · rw [ProfKeysSorted]
      simp only [profIncr, if_pos he, List.pairwise_cons]
      exact ⟨h1, h2⟩
    · by_cases hlt : k < k'
      · rw [ProfKeysSorted]
        simp only [profIncr, if_neg he, if_pos hlt, List.pairwise_cons]
        refine ⟨?_, h1, h2⟩
        intro e he'
        rcases List.mem_cons.1 he' with h | h
        · rw [h]; exact hlt
        · exact lt_trans hlt (h1 e h)
      · have hgt : k' < k := by
          rcases lt_trichotomy k k' with h | h | h
          · exact absurd h hlt
          · exact absurd h he
          · exact h
        rw [ProfKeysSorted]
        simp only [profIncr, if_neg he, if_neg hlt, List.pairwise_cons]
        constructor
        · intro e he'
          rcases keys_profIncr tl k e he' with h | h
          · rw [h]; exact hgt
          · rcases List.mem_map.1 h with ⟨e', he'', heq⟩
            rw [← heq]
            exact h1 e' he''
        · exact ih h2

theorem profFind_profIncr (p : TrigramProfile) (k t : Trigram) (hp : ProfKeysSorted p) :
    profFind (profIncr p k) t =
      if t = k then some ((profFind p k).getD 0 + 1) else profFind p t := by
  induction p with
  | nil => by_cases h : t = k <;> simp [profIncr, profFind, h]
  | cons hd tl ih =>
    obtain ⟨k', v⟩ := hd
    rw [ProfKeysSorted, List.pairwise_cons] at hp
    obtain ⟨h1, h2⟩ := hp
    by_cases he : k = k'
    · subst he
      by_cases ht : t = k <;> simp [profIncr, profFind, ht]
    · by_cases hlt : k < k'
      · have hfk : profFind tl k = none := by
          refine profFind_not_mem tl k (fun e he' => lt_trans hlt (h1 e he'))
        by_cases ht : t = k
        · subst ht
          simp [profIncr, profFind, if_neg he, if_pos hlt, he, hfk]
        · simp [profIncr, profFind, if_neg he, if_pos hlt, ht]
      · have hgt : k' < k := by
          rcases lt_trichotomy k k' with h | h | h
          · exact absurd h hlt
          · exact absurd h he
          · exact h
        have hne : k ≠ k' := he
        by_cases ht : t = k'
        · subst ht
          have htk : t ≠ k := fun h => hne (h ▸ rfl)
          simp [profIncr, profFind, if_neg he, if_neg hlt, htk]
        · simp only [profIncr, if_neg he, if_neg hlt, profFind, if_neg ht]
          rw [ih h2]

theorem foldl_profIncr_sorted (ws : List Trigram) (p : TrigramProfile)
    (hp : ProfKeysSorted p) : ProfKeysSorted (ws.foldl profIncr p) := by
  induction ws generalizing p with
  | nil => exact hp
  | cons w ws ih => exact ih _ (profIncr_sorted p w hp)

theorem profFind_foldl_profIncr (ws : List Trigram) (p : TrigramProfile) (t : Trigram)
    (hp : ProfKeysSorted p) :
    profFind (ws.foldl profIncr p) t =
      if ws.count t = 0 then profFind p t
      else some ((profFind p t).getD 0 + (ws.count t : ℚ)) := by
  induction ws generalizing p with
  | nil => simp
  | cons w ws ih =>
    rw [List.foldl_cons, ih (profIncr p w) (profIncr_sorted p w hp),
        profFind_profIncr p w t hp]
    by_cases htw : t = w
    · subst htw
      simp only [if_pos rfl, Option.getD_some, List.count_cons_self]
      by_cases hc : ws.count t = 0
      · simp [hc]
      · have hc1 : ws.count t + 1 ≠ 0 := by omega
        rw [if_neg hc, if_neg hc1]
        congr 1
        push_cast
        simp [Option.getD_some]
        ring
    · rw [List.count_cons_of_ne htw]
      simp [htw]

theorem windows3_eq (l : Line) :
    windows3 l = (List.range (l.length - 2)).map (fun i => (l.drop i).take 3) := by
  induction l with
  | nil => rfl
  | cons a tail ih =>
    match tail, ih with
    | [], _ => rfl
    | [b], _ => rfl
    | b :: c :: rest, ih =>
      rw [windows3, ih]
      simp only [List.length_cons]
      have h : rest.length + 1 + 1 + 1 - 2 = (rest.length + 1 + 1 - 2) + 1 := by omega
      rw [h, List.range_succ_eq_map]
      simp [List.map_map, Function.comp_def]

theorem specLineTrigrams_eq_windows (line : Line) :
    specLineTrigrams line =
      if (stripCR line).length < 3 then []
      else windows3 ((stripCR line).map tolower) := by
  rw [specLineTrigrams, windows3_eq]
  simp [List.length_map]

theorem profFind_processLine (p : TrigramProfile) (line : Line) (t : Trigram)
    (hp : ProfKeysSorted p) :
    profFind (processLine p line) t =
      if (specLineTrigrams line).count t = 0 then profFind p t
      else some ((profFind p t).getD 0 + ((specLineTrigrams line).count t : ℚ)) := by
  rw [processLine, processDecodedLine, specLineTrigrams_eq_windows]
  by_cases h : (stripCR line).length < 3
  · simp [h]
  · rw [if_neg h, if_neg h]
    exact profFind_foldl_profIncr _ p t hp

theorem processLine_sorted (p : TrigramProfile) (line : Line)
    (hp : ProfKeysSorted p) : ProfKeysSorted (processLine p line) := by
  rw [processLine, processDecodedLine]
  by_cases h : (stripCR line).length < 3
  · simpa [h] using hp
  · rw [if_neg h]
    exact foldl_profIncr_sorted _ p hp

theorem profFind_foldl_processLine (text : Text) (p : TrigramProfile) (t : Trigram)
    (hp : ProfKeysSorted p) :
    profFind (text.foldl processLine p) t =
      if (text.flatMap specLineTrigrams).count t = 0 then profFind p t
      else some ((profFind p t).getD 0 + ((text.flatMap specLineTrigrams).count t : ℚ)) := by
  induction text generalizing p with
  | nil => simp
  | cons line rest ih =>
    rw [List.foldl_cons, ih _ (processLine_sorted p line hp),
        profFind_processLine p line t hp, List.flatMap_cons, List.count_append]
    by_cases h1 : (specLineTrigrams line).count t = 0
    · simp [h1]
    · by_cases h2 : (rest.flatMap specLineTrigrams).count t = 0
      · simp [h1, h2]
      · have h12 : (specLineTrigrams line).count t
            + (rest.flatMap specLineTrigrams).count t ≠ 0 := by omega
        rw [if_neg h2, if_neg h12, if_neg h1]
        simp only [Option.getD_some]
        congr 1
        push_cast
        ring

theorem buildTrigramProfile_sorted (text : Text) :
    ProfKeysSorted (buildTrigramProfile text) := by
  have h : ∀ (p : TrigramProfile), ProfKeysSorted p →
      ProfKeysSorted (text.foldl processLine p) := by
    induction text with
    | nil => exact fun p hp => hp
    | cons line rest ih => exact fun p hp => ih _ (processLine_sorted p line hp)
  exact h [] (List.Pairwise.nil)

/-- C1: `buildTrigramProfile` processes each line independently (stripping one
trailing carriage return, skipping decoded lines of fewer than 3 code points,
and emitting exactly `length - 2` width-3 stride-1 windows from the others,
each window incrementing its count by 1, inserting with count 1 if absent); no
window crosses a line boundary, and a key is present in the resulting profile
exactly when its per-line-window occurrence count is positive, with that count
as its value. -/
theorem buildTrigramProfile_line_window_counts (text : Text) (t : Trigram) :
    profFind (buildTrigramProfile text) t =
      if (text.flatMap specLineTrigrams).count t = 0 then none
      else some (((text.flatMap specLineTrigrams).count t : ℚ)) := by
  rw [buildTrigramProfile,
      profFind_foldl_processLine text [] t (List.Pairwise.nil)]
  simp [profFind]

theorem sumSquares_shift (p : TrigramProfile) (a : ℚ) :
    p.foldl (fun sum element => sum + element.2 * element.2) a = a + sumSquares p := by
  induction p generalizing a with
  | nil => simp [sumSquares]
  | cons e rest ih =>
    simp only [sumSquares, List.foldl_cons]
    rw [ih, ih]
    ring

theorem sumSquares_map_div (p : TrigramProfile) (r : ℚ) :
    sumSquares (p.map (fun element => (element.1, element.2 / r))) =
      sumSquares p / (r * r) := by
  induction p with
  | nil => simp [sumSquares]
  | cons e rest ih =>
    simp only [List.map_cons, sumSquares, List.foldl_cons]
    rw [sumSquares_shift, sumSquares_shift]
    rw [ih, div_mul_div_comm, zero_add, zero_add, div_add_div_same]

/-- C5: for a profile of nonzero weight, dividing every value by the square
root of the sum of squares (the `sqrtf` hypotheses state that the abstracted
float square root is exact at this input) makes the sum of squares of the
values equal to 1: the normalized profile is an L2 unit vector. -/
theorem normalizeTrigramProfile_unit_norm (sqrtf : ℚ → ℚ) (p : TrigramProfile)
    (hsq : sqrtf (sumSquares p) * sqrtf (sumSquares p) = sumSquares p)
    (hnz : sumSquares p ≠ 0) :
    sumSquares (normalizeTrigramProfile sqrtf p) = 1 := by
  rw [normalizeTrigramProfile, sumSquares_map_div, hsq, div_self hnz]

theorem normalizeTrigramProfile_unit_norm_witness :
    sumSquares (normalizeTrigramProfile (fun _ => 5)
      [([97, 97, 97], 3), ([98, 98, 98], 4)]) = 1 :=
  normalizeTrigramProfile_unit_norm (fun _ => 5) [([97, 97, 97], 3), ([98, 98, 98], 4)]
    (by norm_num [sumSquares]) (by norm_num [sumSquares])

/-- C6: `normalizeTrigramProfile` has no guard for zero-weight profiles.  On
the nonempty zero-weight profile {"aaa" ↦ 0} the sum of squares is 0, yet the
function still divides the entry by `sqrtf 0` (which is `0.0f` for the C
`sqrtf`): in IEEE float arithmetic the stored value becomes `0.0f / 0.0f =
NaN`, contradicting the claim that no undefined value is ever left behind.
The division the code performs is exhibited for every possible `sqrtf`. -/
theorem normalizeTrigramProfile_zero_weight_division (sqrtf : ℚ → ℚ) :
    sumSquares [([97, 97, 97], (0 : ℚ))] = 0 ∧
    ([([97, 97, 97], (0 : ℚ))] : TrigramProfile) ≠ [] ∧
    normalizeTrigramProfile sqrtf [([97, 97, 97], (0 : ℚ))] =
      [([97, 97, 97], 0 / sqrtf 0)] := by
  refine ⟨by norm_num [sumSquares], by simp, ?_⟩
  norm_num [normalizeTrigramProfile, sumSquares]

theorem tolower_toupper (c : ℕ) : tolower (toupper c) = tolower c := by
  simp only [tolower, toupper]
  split_ifs <;> omega

theorem stripCR_map_toupper (line : Line) :
    stripCR (line.map toupper) = (stripCR line).map toupper := by
  rw [stripCR, stripCR, List.getLast?_map]
  by_cases h : line.getLast? = some 13
  · rw [h]
    have h13 : toupper 13 = 13 := by simp [toupper]
    simp [h13, List.map_dropLast]
  · have hne : (line.getLast?).map toupper ≠ some 13 := by
      intro hc
      rcases Option.map_eq_some'.1 hc with ⟨y, hy, hty⟩
      have : y = 13 := by
        rw [toupper] at hty
        split_ifs at hty <;> omega
      exact h (this ▸ hy)
    rw [if_neg hne, if_neg h]

theorem processLine_map_toupper (p : TrigramProfile) (line : Line) :
    processLine p (line.map toupper) = processLine p line := by
  rw [processLine, processLine, stripCR_map_toupper, processDecodedLine,
      processDecodedLine, List.length_map]
  by_cases h : (stripCR line).length < 3
  · simp [h]
  · rw [if_neg h, if_neg h, List.map_map]
    have hmap : ((stripCR line).map (tolower ∘ toupper)) = (stripCR line).map tolower :=
      List.map_congr_left (fun c _ => tolower_toupper c)
    rw [hmap]

theorem buildTrigramProfile_map_toupper (text : Text) :
    buildTrigramProfile (text.map (fun line => line.map toupper)) =
      buildTrigramProfile text := by
  rw [buildTrigramProfile, buildTrigramProfile, List.foldl_map]
  congr 1
  funext p line
  exact processLine_map_toupper p line

/-- C7: `buildTrigramProfile` is case-insensitive: upper-casing every code
point of every line (the ASCII fold inverse of the `::tolower` the code
applies) leaves the resulting profile unchanged, and in particular the texts
"ABC" and "abc" yield identical profiles. -/
theorem buildTrigramProfile_case_insensitive :
    (∀ text : Text,
      buildTrigramProfile (text.map (fun line => line.map toupper)) =
        buildTrigramProfile text) ∧
    buildTrigramProfile [[65, 66, 67]] = buildTrigramProfile [[97, 98, 99]] := by
  refine ⟨buildTrigramProfile_map_toupper, ?_⟩
  have h : ([[65, 66, 67]] : Text) =
      ([[97, 98, 99]] : Text).map (fun line => line.map toupper) := by decide
  rw [h, buildTrigramProfile_map_toupper]

theorem profBracket_present (p : TrigramProfile) (k : Trigram) (v : ℚ)
    (hp : ProfKeysSorted p) (h : profFind p k = some v) :
    profBracket p k = (v, p) := by
  induction p with
  | nil => simp [profFind] at h
  | cons hd tl ih =>
    obtain ⟨k', w⟩ := hd
    rw [ProfKeysSorted, List.pairwise_cons] at hp
    obtain ⟨h1, h2⟩ := hp
    by_cases he : k = k'
    · rw [profFind, if_pos he] at h
      have hv : w = v := by injection h
      rw [profBracket, if_pos he, hv]
    · rw [profFind, if_neg he] at h
      by_cases hlt : k < k'
      · exfalso
        have hnone : profFind tl k = none :=
          profFind_not_mem tl k (fun e he' => lt_trans hlt (h1 e he'))
        rw [hnone] at h
        exact Option.noConfusion h
      · rw [profBracket, if_neg he, if_neg hlt, ih h2 h]

/-- The per-entry contribution to the similarity sum: the product of the two
stored values when the key is shared, 0 otherwise. -/
def cosineEntrySum (textProfile languageProfile : TrigramProfile) : ℚ :=
  (textProfile.map (fun elementText =>
    if (profFind languageProfile elementText.1).isSome
    then elementText.2 * (profFind languageProfile elementText.1).getD 0
    else 0)).sum

theorem cosineStep_sorted (lp : TrigramProfile) (s : ℚ) (e : Trigram × ℚ)
    (hp : ProfKeysSorted lp) :
    cosineStep (s, lp) e =
      (s + (if (profFind lp e.1).isSome
            then e.2 * (profFind lp e.1).getD 0 else 0), lp) := by
  rw [cosineStep]
  rcases hfind : profFind lp e.1 with _ | v
  · simp [hfind]
  · rw [profBracket_present lp e.1 v hp hfind]
    simp [hfind]

theorem foldl_cosineStep (tp : List (Trigram × ℚ)) (lp : TrigramProfile) (s : ℚ)
    (hp : ProfKeysSorted lp) :
    tp.foldl cosineStep (s, lp) = (s + cosineEntrySum tp lp, lp) := by
  induction tp generalizing s with
  | nil => simp [cosineEntrySum]
  | cons e tp' ih =>
    have hsum : cosineEntrySum (e :: tp') lp =
        (if (profFind lp e.1).isSome then e.2 * (profFind lp e.1).getD 0 else 0) +
          cosineEntrySum tp' lp := by
      rw [cosineEntrySum, cosineEntrySum, List.map_cons, List.sum_cons]
    rw [List.foldl_cons, cosineStep_sorted lp s e hp, ih, hsum, add_assoc]

theorem getCosineSimilarity_eq (tp lp : TrigramProfile) (hp : ProfKeysSorted lp) :
    getCosineSimilarity tp lp = (cosineEntrySum tp lp, lp) := by
  rw [getCosineSimilarity, foldl_cosineStep tp lp 0 hp, zero_add]

theorem cosineEntrySum_eq_spec (tp lp : TrigramProfile)
    (hnodup : (tp.map Prod.fst).Nodup) :
    cosineEntrySum tp lp = specCosineSum tp lp := by
  induction tp with
  | nil => rfl
  | cons e tp' ih =>
    obtain ⟨k0, v0⟩ := e
    rw [List.map_cons, List.nodup_cons] at hnodup
    obtain ⟨hnot, hnd⟩ := hnodup
    have hrest : ((tp'.map Prod.fst).filter
          (fun k => (profFind lp k).isSome)).map
          (fun k => (profFind ((k0, v0) :: tp') k).getD 0 * (profFind lp k).getD 0) =
        ((tp'.map Prod.fst).filter (fun k => (profFind lp k).isSome)).map
          (fun k => (profFind tp' k).getD 0 * (profFind lp k).getD 0) := by
      refine List.map_congr_left ?_
      intro k hk
      have hk' : k ∈ tp'.map Prod.fst := List.mem_of_mem_filter hk
      have hne : k ≠ k0 := fun h => hnot (h ▸ hk')
      rw [profFind, if_neg hne]
    have hl : cosineEntrySum ((k0, v0) :: tp') lp =
        (if (profFind lp k0).isSome then v0 * (profFind lp k0).getD 0 else 0) +
          cosineEntrySum tp' lp := by
      rw [cosineEntrySum, cosineEntrySum, List.map_cons, List.sum_cons]
    have hself : profFind ((k0, v0) :: tp') k0 = some v0 := by
      rw [profFind, if_pos rfl]
    by_cases hmem : (profFind lp k0).isSome
    · rw [hl, if_pos hmem, ih hnd, specCosineSum, specCosineSum, List.map_cons,
          List.filter_cons, if_pos hmem, List.map_cons, List.sum_cons, hself, hrest]
      simp
    · rw [hl, if_neg hmem, ih hnd, specCosineSum, specCosineSum, List.map_cons,
          List.filter_cons, if_neg hmem, hrest, zero_add]

/-- C2: the similarity returned by `getCosineSimilarity` is the sum, over
exactly those trigrams present as keys of `textProfile` that are also keys of
`languageProfile`, of the products of the two stored values; keys present only
in `languageProfile` contribute nothing (the sum ranges over `textProfile`'s
keys alone).  The hypotheses state the `std::map` representation invariants of
the two profiles (no duplicate keys, sorted keys). -/
theorem getCosineSimilarity_common_key_sum (textProfile languageProfile : TrigramProfile)
    (hnodup : (textProfile.map Prod.fst).Nodup)
    (hsorted : ProfKeysSorted languageProfile) :
    (getCosineSimilarity textProfile languageProfile).1 =
      specCosineSum textProfile languageProfile := by
  rw [getCosineSimilarity_eq _ _ hsorted]
  exact cosineEntrySum_eq_spec _ _ hnodup

theorem getCosineSimilarity_common_key_sum_witness :
    (getCosineSimilarity [([1, 2, 3], 2), ([4, 5, 6], 3)]
        [([1, 2, 3], 5), ([7, 8, 9], 1)]).1 =
      specCosineSum [([1, 2, 3], 2), ([4, 5, 6], 3)] [([1, 2, 3], 5), ([7, 8, 9], 1)] :=
  getCosineSimilarity_common_key_sum _ _ (by decide)
    (by rw [ProfKeysSorted]; decide)

/-- C9: `getCosineSimilarity` leaves the language profile it threads through
`operator[]` exactly as it was (the `find` guard prevents every default
insertion), and therefore the similarity calls that `identifyLanguage`
performs against the catalog leave every catalog entry unchanged (the text
profile is never written to begin with: the fold only reads it). -/
theorem getCosineSimilarity_read_only :
    (∀ textProfile languageProfile : TrigramProfile,
      ProfKeysSorted languageProfile →
      (getCosineSimilarity textProfile languageProfile).2 = languageProfile) ∧
    (∀ (sqrtf : ℚ → ℚ) (text : Text) (languages : LanguageProfiles),
      (∀ entry ∈ languages, ProfKeysSorted entry.trigramProfile) →
      languages.map (fun entry =>
        { entry with trigramProfile :=
            (getCosineSimilarity
              (normalizeTrigramProfile sqrtf (buildTrigramProfile text))
              entry.trigramProfile).2 }) = languages) := by
  have h1 : ∀ tp lp : TrigramProfile, ProfKeysSorted lp →
      (getCosineSimilarity tp lp).2 = lp := by
    intro tp lp hp
    rw [getCosineSimilarity_eq tp lp hp]
  refine ⟨h1, ?_⟩
  intro sq text langs hall
  induction langs with
  | nil => rfl
  | cons e rest ih =>
    rw [List.map_cons, h1 _ _ (hall e (List.mem_cons_self e rest)),
        ih (fun x hx => hall x (List.mem_cons_of_mem e hx))]

theorem getCosineSimilarity_read_only_witness :
    (getCosineSimilarity [([1, 2, 3], 2)] [([1, 2, 3], 5), ([7, 8, 9], 1)]).2 =
      [([1, 2, 3], 5), ([7, 8, 9], 1)] ∧
    ([⟨"en", [([1, 2, 3], 1)]⟩] : LanguageProfiles).map (fun entry =>
      { entry with trigramProfile :=
          (getCosineSimilarity
            (normalizeTrigramProfile (fun q => q) (buildTrigramProfile [[97, 98, 99]]))
            entry.trigramProfile).2 }) = [⟨"en", [([1, 2, 3], 1)]⟩] :=
  ⟨getCosineSimilarity_read_only.1 _ _ (by rw [ProfKeysSorted]; decide),
   getCosineSimilarity_read_only.2 (fun q => q) [[97, 98, 99]] _
     (by intro entry he; simp at he; rw [he, ProfKeysSorted]; decide)⟩

theorem foldl_bestStep_acc_le (tp : TrigramProfile) (langs : LanguageProfiles)
    (acc : ℚ × String) : acc.1 ≤ (langs.foldl (bestStep tp) acc).1 := by
  induction langs generalizing acc with
  | nil => exact le_refl _
  | cons l ls ih =>
    rw [List.foldl_cons]
    refine le_trans ?_ (ih (bestStep tp acc l))
    rw [bestStep]
    split_ifs with h
    · exact le_of_lt h
    · exact le_refl _

theorem foldl_bestStep_ge_scores (tp : TrigramProfile) (langs : LanguageProfiles)
    (acc : ℚ × String) :
    ∀ lp ∈ langs, (getCosineSimilarity tp lp.trigramProfile).1 ≤
      (langs.foldl (bestStep tp) acc).1 := by
  induction langs generalizing acc with
  | nil => intro lp h; exact absurd h (List.not_mem_nil lp)
  | cons l ls ih =>
    intro lp hlp
    rw [List.foldl_cons]
    rcases List.mem_cons.1 hlp with h | h
    · subst h
      refine le_trans ?_ (foldl_bestStep_acc_le tp ls (bestStep tp acc lp))
      rw [bestStep]
      split_ifs with hc
      · exact le_refl _
      · exact not_lt.1 hc
    · exact ih (bestStep tp acc l) lp h

theorem foldl_bestStep_realized (tp : TrigramProfile) (langs : LanguageProfiles)
    (acc : ℚ × String) :
    langs.foldl (bestStep tp) acc = acc ∨
      ∃ lp ∈ langs, lp.languageCode = (langs.foldl (bestStep tp) acc).2 ∧
        (getCosineSimilarity tp lp.trigramProfile).1 =
          (langs.foldl (bestStep tp) acc).1 := by
  induction langs generalizing acc with
  | nil => exact Or.inl rfl
  | cons l ls ih =>
    rw [List.foldl_cons]
    rcases ih (bestStep tp acc l) with h | h
    · rw [h]
      by_cases hc : acc.1 < (getCosineSimilarity tp l.trigramProfile).1
      · right
        refine ⟨l, List.mem_cons_self l ls, ?_, ?_⟩
        · rw [bestStep, if_pos hc]
        · rw [bestStep, if_pos hc]
      · left
        rw [bestStep, if_neg hc]
    · right
      obtain ⟨lp, hmem, hcode, hsc⟩ := h
      exact ⟨lp, List.mem_cons_of_mem l hmem, hcode, hsc⟩

theorem foldl_bestStep_no_update (tp : TrigramProfile) (langs : LanguageProfiles) :
    ∀ acc : ℚ × String, 0 ≤ acc.1 →
    (∀ lp ∈ langs, (getCosineSimilarity tp lp.trigramProfile).1 ≤ 0) →
    langs.foldl (bestStep tp) acc = acc := by
  induction langs with
  | nil => intro acc _ _; rfl
  | cons l ls ih =>
    intro acc h0 h
    rw [List.foldl_cons]
    have hstep : bestStep tp acc l = acc := by
      rw [bestStep, if_neg (not_lt.2 (le_trans (h l (List.mem_cons_self l ls)) h0))]
    rw [hstep]
    exact ih acc h0 (fun lp hlp => h lp (List.mem_cons_of_mem l hlp))

/-- C4: when no catalog entry scores strictly above 0 (the empty catalog
included), `identifyLanguage` returns the sentinel `"---"` unchanged with no
score appended; when some entry scores strictly above 0, the returned string
is the loop's winning code with the winning score appended, and that winner is
a catalog entry achieving the maximum score. -/
theorem identifyLanguage_sentinel_and_formatting (sqrtf : ℚ → ℚ)
    (to_string : ℚ → String) (text : Text) (languages : LanguageProfiles) :
    ((∀ lp ∈ languages,
        (getCosineSimilarity (normalizeTrigramProfile sqrtf (buildTrigramProfile text))
          lp.trigramProfile).1 ≤ 0) →
      identifyLanguage sqrtf to_string text languages = "---") ∧
    ((∃ lp ∈ languages,
        0 < (getCosineSimilarity (normalizeTrigramProfile sqrtf (buildTrigramProfile text))
          lp.trigramProfile).1) →
      0 < (bestMatch (normalizeTrigramProfile sqrtf (buildTrigramProfile text))
            languages).1 ∧
      identifyLanguage sqrtf to_string text languages =
        (bestMatch (normalizeTrigramProfile sqrtf (buildTrigramProfile text))
          languages).2 ++ " (" ++
          to_string (bestMatch (normalizeTrigramProfile sqrtf (buildTrigramProfile text))
            languages).1 ++ ")" ∧
      ∃ lp ∈ languages,
        lp.languageCode =
          (bestMatch (normalizeTrigramProfile sqrtf (buildTrigramProfile text))
            languages).2 ∧
        (getCosineSimilarity (normalizeTrigramProfile sqrtf (buildTrigramProfile text))
          lp.trigramProfile).1 =
          (bestMatch (normalizeTrigramProfile sqrtf (buildTrigramProfile text))
            languages).1 ∧
        ∀ lp' ∈ languages,
          (getCosineSimilarity (normalizeTrigramProfile sqrtf (buildTrigramProfile text))
            lp'.trigramProfile).1 ≤
            (getCosineSimilarity (normalizeTrigramProfile sqrtf (buildTrigramProfile text))
              lp.trigramProfile).1) := by
  constructor
  · intro h
    have hb : bestMatch (normalizeTrigramProfile sqrtf (buildTrigramProfile text))
        languages = (0, "---") :=
      foldl_bestStep_no_update _ languages (0, "---") (le_refl 0) h
    rw [identifyLanguage, hb]
    norm_num
  · intro hex
    obtain ⟨lp0, hmem0, hpos0⟩ := hex
    have hge := foldl_bestStep_ge_scores
      (normalizeTrigramProfile sqrtf (buildTrigramProfile text)) languages (0, "---")
    have hb1 : 0 < (bestMatch (normalizeTrigramProfile sqrtf (buildTrigramProfile text))
        languages).1 := lt_of_lt_of_le hpos0 (hge lp0 hmem0)
    refine ⟨hb1, ?_, ?_⟩
    · rw [identifyLanguage, if_pos hb1]
    · rcases foldl_bestStep_realized
        (normalizeTrigramProfile sqrtf (buildTrigramProfile text)) languages (0, "---")
        with h | h
      · exfalso
        rw [bestMatch, h] at hb1
        exact lt_irrefl 0 hb1
      · obtain ⟨lp, hmem, hcode, hsc⟩ := h
        refine ⟨lp, hmem, hcode, hsc, ?_⟩
        intro lp' hmem'
        rw [hsc]
        exact hge lp' hmem'

theorem identifyLanguage_sentinel_and_formatting_witness :
    identifyLanguage (fun q => q) (fun _ => "") [[97, 98, 99]]
      [⟨"L1", [([120, 120, 120], 1)]⟩] = "---" ∧
    identifyLanguage (fun _ => 2) (fun _ => "s") [[97, 97, 97, 97]]
      [⟨"L1", [([97, 97, 97], (1 : ℚ)/2)]⟩] =
      (bestMatch (normalizeTrigramProfile (fun _ => 2)
          (buildTrigramProfile [[97, 97, 97, 97]]))
        [⟨"L1", [([97, 97, 97], (1 : ℚ)/2)]⟩]).2 ++ " (" ++
        (fun _ => "s") (bestMatch (normalizeTrigramProfile (fun _ => 2)
          (buildTrigramProfile [[97, 97, 97, 97]]))
        [⟨"L1", [([97, 97, 97], (1 : ℚ)/2)]⟩]).1 ++ ")" :=
  ⟨(identifyLanguage_sentinel_and_formatting (fun q => q) (fun _ => "") [[97, 98, 99]]
      [⟨"L1", [([120, 120, 120], 1)]⟩]).1
    (by
      intro lp hlp
      simp only [List.mem_singleton] at hlp
      rw [hlp]
      norm_num [getCosineSimilarity, cosineStep, normalizeTrigramProfile, sumSquares,
        buildTrigramProfile, processLine, processDecodedLine, stripCR, windows3,
        tolower, profIncr, profFind, profBracket]),
   ((identifyLanguage_sentinel_and_formatting (fun _ => 2) (fun _ => "s")
      [[97, 97, 97, 97]] [⟨"L1", [([97, 97, 97], (1 : ℚ)/2)]⟩]).2
    ⟨⟨"L1", [([97, 97, 97], (1 : ℚ)/2)]⟩, List.mem_singleton.2 rfl,
      by
        norm_num [getCosineSimilarity, cosineStep, normalizeTrigramProfile, sumSquares,
          buildTrigramProfile, processLine, processDecodedLine, stripCR, windows3,
          tolower, profIncr, profFind, profBracket]⟩).2.1⟩

/-- C3 counterexample: for the text "abc" and a two-entry catalog whose
profiles are both disjoint from the text's trigrams, the two entries achieve
identical scores (both 0), yet `identifyLanguage` does not return L1's
language code "L1" (with or without an appended score): it returns the
sentinel `"---"`, because an entry whose score merely equals the current
maximum never overwrites it and the initial maximum is already 0. -/
theorem identifyLanguage_zero_tie_returns_sentinel :
    (getCosineSimilarity
        (normalizeTrigramProfile (fun q => q) (buildTrigramProfile [[97, 98, 99]]))
        (⟨"L1", [([120, 120, 120], 1)]⟩ : LanguageProfile).trigramProfile).1 =
      (getCosineSimilarity
        (normalizeTrigramProfile (fun q => q) (buildTrigramProfile [[97, 98, 99]]))
        (⟨"L2", [([121, 121, 121], 1)]⟩ : LanguageProfile).trigramProfile).1 ∧
    identifyLanguage (fun q => q) (fun _ => "") [[97, 98, 99]]
      [⟨"L1", [([120, 120, 120], 1)]⟩, ⟨"L2", [([121, 121, 121], 1)]⟩] = "---" ∧
    ∀ s : String,
      identifyLanguage (fun q => q) (fun _ => "") [[97, 98, 99]]
        [⟨"L1", [([120, 120, 120], 1)]⟩, ⟨"L2", [([121, 121, 121], 1)]⟩] ≠
        "L1" ++ s := by
  have heval : identifyLanguage (fun q => q) (fun _ => "") [[97, 98, 99]]
      [⟨"L1", [([120, 120, 120], 1)]⟩, ⟨"L2", [([121, 121, 121], 1)]⟩] = "---" := by
    norm_num [identifyLanguage, bestMatch, bestStep, getCosineSimilarity, cosineStep,
      normalizeTrigramProfile, sumSquares, buildTrigramProfile, processLine,
      processDecodedLine, stripCR, windows3, tolower, profIncr, profFind, profBracket]
  refine ⟨?_, heval, ?_⟩
  · norm_num [getCosineSimilarity, cosineStep, normalizeTrigramProfile, sumSquares,
      buildTrigramProfile, processLine, processDecodedLine, stripCR, windows3,
      tolower, profIncr, profFind, profBracket]
  · intro s h
    rw [heval, String.ext_iff, String.data_append] at h
    simp at h

/-- C3 (amended): `identifyLanguage` tracks the best match with a strict
greater-than comparison, so a score equal to the current maximum never
overwrites it; consequently for a two-entry catalog [L1, L2] with identical
scores that are strictly positive, the returned string carries L1's language
code (the zero-tie case instead returns the sentinel, see the
counterexample). -/
theorem identifyLanguage_strict_gt_tiebreak :
    (∀ (tp : TrigramProfile) (best : ℚ × String) (lp : LanguageProfile),
      (getCosineSimilarity tp lp.trigramProfile).1 ≤ best.1 →
      bestStep tp best lp = best) ∧
    (∀ (sqrtf : ℚ → ℚ) (to_string : ℚ → String) (text : Text)
      (L1 L2 : LanguageProfile),
      (getCosineSimilarity (normalizeTrigramProfile sqrtf (buildTrigramProfile text))
        L1.trigramProfile).1 =
      (getCosineSimilarity (normalizeTrigramProfile sqrtf (buildTrigramProfile text))
        L2.trigramProfile).1 →
      0 < (getCosineSimilarity (normalizeTrigramProfile sqrtf (buildTrigramProfile text))
        L1.trigramProfile).1 →
      identifyLanguage sqrtf to_string text [L1, L2] =
        L1.languageCode ++ " (" ++
          to_string ((getCosineSimilarity
            (normalizeTrigramProfile sqrtf (buildTrigramProfile text))
            L1.trigramProfile).1) ++ ")") := by
  constructor
  · intro tp best lp h
    rw [bestStep, if_neg (not_lt.2 h)]
  · intro sqrtf ts text L1 L2 heq hpos
    have hb : bestMatch (normalizeTrigramProfile sqrtf (buildTrigramProfile text))
        [L1, L2] =
        ((getCosineSimilarity (normalizeTrigramProfile sqrtf (buildTrigramProfile text))
          L1.trigramProfile).1, L1.languageCode) := by
      rw [bestMatch, List.foldl_cons, List.foldl_cons, List.foldl_nil]
      have h1 : bestStep (normalizeTrigramProfile sqrtf (buildTrigramProfile text))
          (0, "---") L1 =
          ((getCosineSimilarity (normalizeTrigramProfile sqrtf (buildTrigramProfile text))
            L1.trigramProfile).1, L1.languageCode) := by
        rw [bestStep, if_pos hpos]
      rw [h1, bestStep, if_neg (not_lt.2 (le_of_eq heq.symm))]
    rw [identifyLanguage, hb, if_pos hpos]

theorem identifyLanguage_strict_gt_tiebreak_witness :
    identifyLanguage (fun _ => 2) (fun _ => "s") [[97, 97, 97, 97]]
      [⟨"L1", [([97, 97, 97], (1 : ℚ)/2)]⟩, ⟨"L2", [([97, 97, 97], (1 : ℚ)/2)]⟩] =
      "L1" ++ " (" ++ "s" ++ ")" :=
  identifyLanguage_strict_gt_tiebreak.2 (fun _ => 2) (fun _ => "s") [[97, 97, 97, 97]]
    ⟨"L1", [([97, 97, 97], (1 : ℚ)/2)]⟩ ⟨"L2", [([97, 97, 97], (1 : ℚ)/2)]⟩
    (by norm_num [getCosineSimilarity, cosineStep, normalizeTrigramProfile, sumSquares,
      buildTrigramProfile, processLine, processDecodedLine, stripCR, windows3,
      tolower, profIncr, profFind, profBracket])
    (by norm_num [getCosineSimilarity, cosineStep, normalizeTrigramProfile, sumSquares,
      buildTrigramProfile, processLine, processDecodedLine, stripCR, windows3,
      tolower, profIncr, profFind, profBracket])

theorem foldlM_decode_error (from_bytes : List ℕ → Option Line) (text : List (List ℕ)) :
    ∀ p : TrigramProfile,
    (∃ line ∈ text, from_bytes (stripCR line) = none) →
    List.foldlM (fun textProfile line =>
        match from_bytes (stripCR line) with
        | none => Except.error "range_error"
        | some unicodeString => Except.ok (processDecodedLine textProfile unicodeString))
      p text = (Except.error "range_error" : Except String TrigramProfile) := by
  induction text with
  | nil =>
    intro p h
    obtain ⟨l, hl, _⟩ := h
    exact absurd hl (List.not_mem_nil l)
  | cons line rest ih =>
    intro p h
    rw [List.foldlM_cons]
    rcases hd : from_bytes (stripCR line) with _ | u
    · simp only [hd]
      rfl
    · obtain ⟨l, hl, hnone⟩ := h
      rcases List.mem_cons.1 hl with heq | hmem
      · subst heq
        rw [hd] at hnone
        exact absurd hnone (by simp)
      · simp only [hd]
        rw [show ((Except.ok (processDecodedLine p u) : Except String TrigramProfile) >>=
            fun p' => List.foldlM _ p' rest) = _ from rfl]
        exact ih _ ⟨l, hmem, hnone⟩

theorem foldlM_decode_ok (from_bytes : List ℕ → Option Line) (text : List (List ℕ)) :
    ∀ p : TrigramProfile,
    (∀ line ∈ text, from_bytes (stripCR line) ≠ none) →
    List.foldlM (fun textProfile line =>
        match from_bytes (stripCR line) with
        | none => Except.error "range_error"
        | some unicodeString => Except.ok (processDecodedLine textProfile unicodeString))
      p text =
      Except.ok ((text.map (fun line => (from_bytes (stripCR line)).getD [])).foldl
        processDecodedLine p) := by
  induction text with
  | nil => intro p _; rfl
  | cons line rest ih =>
    intro p h
    rcases hd : from_bytes (stripCR line) with _ | u
    · exact absurd hd (h line (List.mem_cons_self line rest))
    · rw [List.foldlM_cons]
      simp only [hd, List.map_cons, List.foldl_cons, Option.getD_some]
      rw [show ((Except.ok (processDecodedLine p u) : Except String TrigramProfile) >>=
          fun p' => List.foldlM _ p' rest) = _ from rfl]
      exact ih _ (fun l hl => h l (List.mem_cons_of_mem line hl))

/-- C8: a line whose bytes cannot be decoded as valid Unicode (`from_bytes`
returns `none`, modelling the thrown `std::range_error`) makes the whole
profile construction fail with the propagated structured error: no profile —
in particular no partial or garbage one — is returned for that input.  When
every line decodes, the result is the ordinary profile of the decoded lines,
so garbage trigrams are never silently emitted in either case. -/
theorem buildTrigramProfileBytes_decode_failure (from_bytes : List ℕ → Option Line)
    (text : List (List ℕ)) :
    ((∃ line ∈ text, from_bytes (stripCR line) = none) →
      buildTrigramProfileBytes from_bytes text = Except.error "range_error") ∧
    ((∀ line ∈ text, from_bytes (stripCR line) ≠ none) →
      buildTrigramProfileBytes from_bytes text =
        Except.ok ((text.map (fun line => (from_bytes (stripCR line)).getD [])).foldl
          processDecodedLine [])) :=
  ⟨foldlM_decode_error from_bytes text [], foldlM_decode_ok from_bytes text []⟩

theorem buildTrigramProfileBytes_decode_failure_witness :
    buildTrigramProfileBytes (fun l : List ℕ => if l.all (fun b => b < 128) then some l else none)
      [[97, 98, 99], [200]] = Except.error "range_error" ∧
    buildTrigramProfileBytes (fun l : List ℕ => if l.all (fun b => b < 128) then some l else none)
      [[97, 98, 99]] =
      Except.ok (([[97, 98, 99]].map (fun line =>
        ((fun l : List ℕ => if l.all (fun b => b < 128) then some l else none)
          (stripCR line)).getD [])).foldl processDecodedLine []) :=
  ⟨(buildTrigramProfileBytes_decode_failure
      (fun l : List ℕ => if l.all (fun b => b < 128) then some l else none)
      [[97, 98, 99], [200]]).1 ⟨[200], by decide, by decide⟩,
   (buildTrigramProfileBytes_decode_failure
      (fun l : List ℕ => if l.all (fun b => b < 128) then some l else none)
      [[97, 98, 99]]).2 (by decide)⟩

/-- C10: `addLanguage` returns true exactly when the text was read
successfully, the corpus profile built from it is non-empty, and the CSV write
succeeded; in every other case it returns false, and no write at all is
attempted unless the read succeeded and the profile was non-empty.  When it
writes, it writes exactly one row per trigram, each count truncated to an
integer, and always to the fixed path "resources/trigrams/gua.csv" regardless
of the `path` argument. -/
theorem addLanguage_gua_csv (getTextFromFile : String → Bool × Text)
    (writeCSV : String → CSVData → Bool) (path : String) :
    ((addLanguage getTextFromFile writeCSV path).1 = true ↔
      ((getTextFromFile path).1 = true ∧
       buildLanguageProfile (getTextFromFile path).2 ≠ [] ∧
       writeCSV "resources/trigrams/gua.csv"
         ((buildLanguageProfile (getTextFromFile path).2).map
           (fun element => (element.1, toString (truncInt element.2)))) = true)) ∧
    (¬ ((getTextFromFile path).1 = true ∧
        buildLanguageProfile (getTextFromFile path).2 ≠ []) →
      (addLanguage getTextFromFile writeCSV path).1 = false ∧
      (addLanguage getTextFromFile writeCSV path).2 = []) ∧
    (((getTextFromFile path).1 = true ∧
        buildLanguageProfile (getTextFromFile path).2 ≠ []) →
      (addLanguage getTextFromFile writeCSV path).2 =
        [("resources/trigrams/gua.csv",
          (buildLanguageProfile (getTextFromFile path).2).map
            (fun element => (element.1, toString (truncInt element.2))))]) := by
  by_cases hok : (getTextFromFile path).1 = true
  · by_cases hemp : buildLanguageProfile (getTextFromFile path).2 = []
    · simp [addLanguage, hok, hemp]
    · simp [addLanguage, hok, hemp, List.isEmpty_iff]
  · rw [Bool.not_eq_true] at hok
    simp [addLanguage, hok]

theorem addLanguage_gua_csv_witness :
    (addLanguage (fun _ => (true, [[97, 98, 99, 100]])) (fun _ _ => true)
      "input.txt").2 =
      [("resources/trigrams/gua.csv",
        (buildLanguageProfile
            ((fun _ => ((true : Bool), [[97, 98, 99, 100]])) "input.txt").2).map
          (fun element => (element.1, toString (truncInt element.2))))] :=
  (addLanguage_gua_csv (fun _ => (true, [[97, 98, 99, 100]])) (fun _ _ => true)
    "input.txt").2.2 ⟨rfl, by decide⟩
